import Mathlib

/-!
Shallow embedding of `pc.py`, a proxy-scanner script, together with proofs
about its specification claims.

The script's string handling is CPython string handling; we embed the relevant
CPython primitives (`str.split`, `str.replace`, `str.startswith`, `str.strip`,
`int(...)`) as structurally recursive functions over `List Char` (ASCII
fragment, which covers every input class the claims mention), wrapped over
`String.data`.  Floating-point elapsed times are modelled as exact rationals;
the script only adds and compares them, so `ℚ` is a faithful abstraction of
the arithmetic actually performed.
-/

namespace PC

/-- CPython whitespace characters (ASCII fragment), as stripped by
`str.strip()` and by `int(...)` around a numeric literal. -/
def isPySpace (c : Char) : Bool :=
  c = ' ' || c = '\t' || c = '\n' || c = '\r' || c = '\x0b' || c = '\x0c'

/-- Strip leading and trailing whitespace from a character list, as
`str.strip()` does. -/
def pyStripCs (cs : List Char) : List Char :=
  ((cs.dropWhile isPySpace).reverse.dropWhile isPySpace).reverse

/-- CPython `str.strip()` on a string. -/
def pyStrip (s : String) : String :=
  ⟨pyStripCs s.data⟩

/-- CPython `str.split(sep)` for a single-character separator: split at every
occurrence of `sep`; `"".split(sep) == ['']`. -/
def pySplit (sep : Char) : List Char → List (List Char)
  | [] => [[]]
  | c :: rest =>
    let r := pySplit sep rest
    if c = sep then [] :: r
    else
      match r with
      | [] => [[c]]
      | g :: gs => (c :: g) :: gs

/-- Decide whether `pat` is a prefix of `cs`. -/
def isPrefixCs : List Char → List Char → Bool
  | [], _ => true
  | _ :: _, [] => false
  | p :: ps, c :: cs => p = c && isPrefixCs ps cs

/-- Fuel-driven body of CPython `str.replace(pat, rep)`: scan left to right,
replacing non-overlapping occurrences of the (non-empty) pattern. -/
def pyReplaceAux (pat rep : List Char) : Nat → List Char → List Char
  | 0, cs => cs
  | _ + 1, [] => []
  | fuel + 1, c :: cs =>
    if isPrefixCs pat (c :: cs) then
      rep ++ pyReplaceAux pat rep fuel (List.drop (pat.length - 1) cs)
    else
      c :: pyReplaceAux pat rep fuel cs

/-- CPython `str.replace(pat, rep)` on character lists (non-empty pattern;
`pc.py` only replaces the non-empty patterns `http://` and `https://`). -/
def pyReplaceCs (pat rep cs : List Char) : List Char :=
  if pat.isEmpty then cs else pyReplaceAux pat rep cs.length cs

/-- CPython `str.replace` on strings. -/
def pyReplace (s pat rep : String) : String :=
  ⟨pyReplaceCs pat.data rep.data s.data⟩

/-- CPython `str.startswith(pre)`. -/
def pyStartsWith (s pre : String) : Bool :=
  isPrefixCs pre.data s.data

/-- Value of an ASCII digit character. -/
def digitVal (c : Char) : Nat := c.toNat - 48

/-- Continue parsing a CPython decimal literal after the first digit:
digits, with single underscores allowed only between digits. -/
def pyDigitsAux : Nat → List Char → Option Nat
  | acc, [] => some acc
  | acc, c :: cs =>
    if c.isDigit then pyDigitsAux (10 * acc + digitVal c) cs
    else if c = '_' then
      match cs with
      | [] => none
      | d :: cs2 => if d.isDigit then pyDigitsAux (10 * acc + digitVal d) cs2 else none
    else none

/-- Parse a CPython decimal digit part: at least one digit, underscores only
between digits. -/
def pyDigits : List Char → Option Nat
  | [] => none
  | c :: cs => if c.isDigit then pyDigitsAux (digitVal c) cs else none

/-- CPython `int(s)` for base-10 ASCII input: strip whitespace, optional
sign, then a digit part.  Returns `none` where CPython raises `ValueError`. -/
def pyInt (s : String) : Option Int :=
  match pyStripCs s.data with
  | '+' :: rest => (pyDigits rest).map Int.ofNat
  | '-' :: rest => (pyDigits rest).map (fun n => -(n : Int))
  | rest => (pyDigits rest).map Int.ofNat

/-- Embedding of `format_proxy` (pc.py lines 15–19): strip any `http://` and
`https://` scheme occurrences.  The `if proxy:` guard returns falsy values
unchanged; on strings only `""` is falsy, and both replaces fix `""`, so the
guard is kept for faithfulness. -/
def format_proxy (proxy : String) : String :=
  if proxy = "" then proxy
  else pyReplace (pyReplace proxy "http://" "") "https://" ""

/-- Embedding of `format_domain` (pc.py lines 21–25): prepend `http://`
unless the string starts with `"http"`. -/
def format_domain (domain : String) : String :=
  if pyStartsWith domain "http" then domain else "http://" ++ domain

/-- Embedding of `validate_proxy` (pc.py lines 132–148): falsy input is
invalid; otherwise split on `':'`, require exactly two parts, and require the
second to parse via `int(...)` into `[0, 65535]`.  The Python `try/except`
translates to totality: every failure path returns `false`. -/
def validate_proxy (proxy : String) : Bool :=
  if proxy = "" then false
  else
    match pySplit ':' proxy.data with
    | [_, p2] =>
      match pyInt ⟨p2⟩ with
      | some port => decide ((0 : Int) ≤ port) && decide (port ≤ 65535)
      | none => false
    | _ => false

/-- Modelled from the spec: "scheme present" for the claim about
`format_domain` means the URL already carries one of the two schemes this
tool handles, `http://` or `https://`.  This definition follows the spec's
words and is compared against the code's actual `startswith("http")` test. -/
def specHasScheme (d : String) : Bool :=
  pyStartsWith d "http://" || pyStartsWith d "https://"

/-- Embedding of the proxy-file loading loop of `run_scan`
(pc.py lines 181–189): each line is stripped, formatted, then kept exactly
when `validate_proxy` accepts it. -/
def loadProxies (lines : List String) : List String :=
  lines.foldl
    (fun acc line =>
      let p := format_proxy (pyStrip line)
      if validate_proxy p then acc ++ [p] else acc)
    []

/-- Outcome of one probe as the worker merges it into the statistics
(pc.py lines 221–237): a transport-level success carries the HTTP status
code and the elapsed time, a transport-level failure carries nothing; both
remember which proxy (if any) was used. -/
inductive POutcome where
  | ok (proxy : Option String) (status : Nat) (elapsed : ℚ)
  | fail (proxy : Option String)
deriving DecidableEq

/-- The shared `stats` dictionary of `run_scan` (pc.py lines 170–177)
together with the `successful_proxies` set (line 153).  The status-code
dictionary is modelled as its counting function, the `float('inf')` initial
fastest time as `⊤ : WithTop ℚ`, and the insertion-ordered set as a
duplicate-free list.  `total_time` stands in, with exact rational
arithmetic, for the source's Python-float accumulator: the exact model is
faithful to the guards and comparisons made on it, but it does not model
the per-addition IEEE-double rounding of `+=`, so no theorem below asserts
order-independence of the accumulated sum on behalf of the program. -/
structure Stats where
  successful_requests : Nat
  failed_requests : Nat
  status_codes : Nat → Nat
  total_time : ℚ
  fastest_proxy : Option String × WithTop ℚ
  slowest_proxy : Option String × ℚ
  successful_proxies : List String

/-- Initial statistics (pc.py lines 153, 170–177). -/
def initStats : Stats :=
  { successful_requests := 0
    failed_requests := 0
    status_codes := fun _ => 0
    total_time := 0
    fastest_proxy := (none, ⊤)
    slowest_proxy := (none, 0)
    successful_proxies := [] }

/-- Add a proxy to the successful-proxy set: Python `set.add`, modelled on an
insertion-ordered duplicate-free list. -/
def insertProxy (l : List String) (p : String) : List String :=
  if p ∈ l then l else l ++ [p]

/-- One execution of the `with stats_lock:` block of `worker`
(pc.py lines 223–237): merge a single probe outcome into the statistics.
The fastest/slowest comparisons are the strict `<` / `>` of the source, and
a proxy is added to the successful set only when the status is exactly 200
and the proxy string is truthy.  `total_time := st.total_time + e` renders
the float `+=` of the source in exact rational arithmetic (see `Stats`):
float comparison is exact, float addition rounds, so conclusions drawn from
this field are confined to guardedness, never to the rounded sum's value
across different merge orders. -/
def updateStats (st : Stats) (o : POutcome) : Stats :=
  match o with
  | .fail _ => { st with failed_requests := st.failed_requests + 1 }
  | .ok p s e =>
      { successful_requests := st.successful_requests + 1
        failed_requests := st.failed_requests
        status_codes := fun c => if c = s then st.status_codes c + 1 else st.status_codes c
        total_time := st.total_time + e
        fastest_proxy :=
          if (e : WithTop ℚ) < st.fastest_proxy.2 then (p, (e : WithTop ℚ))
          else st.fastest_proxy
        slowest_proxy :=
          if st.slowest_proxy.2 < e then (p, e) else st.slowest_proxy
        successful_proxies :=
          match p with
          | some q =>
              if s = 200 ∧ q ≠ "" then insertProxy st.successful_proxies (format_proxy q)
              else st.successful_proxies
          | none => st.successful_proxies }

/-- Replay a list of probe outcomes into the statistics, in list order. -/
def scanStats (l : List POutcome) : Stats :=
  l.foldl updateStats initStats

/-- Whether an outcome is a transport-level success. -/
def isOk : POutcome → Bool
  | .ok _ _ _ => true
  | .fail _ => false

/-- Whether an outcome is a success with the given status code. -/
def isOkStatus (c : Nat) : POutcome → Bool
  | .ok _ s _ => decide (c = s)
  | .fail _ => false

/-- Elapsed times of the successful outcomes, in order. -/
def okElapsedQ (l : List POutcome) : List ℚ :=
  l.filterMap fun o =>
    match o with
    | .ok _ _ e => some e
    | .fail _ => none

/-- Elapsed times of the successful outcomes, viewed in `WithTop ℚ`. -/
def okElapsedW (l : List POutcome) : List (WithTop ℚ) :=
  (okElapsedQ l).map WithTop.some

/-- The candidate fastest-record of one outcome. -/
def fastCand : POutcome → Option (Option String × WithTop ℚ)
  | .ok p _ e => some (p, (e : WithTop ℚ))
  | .fail _ => none

/-- The candidate slowest-record of one outcome. -/
def slowCand : POutcome → Option (Option String × ℚ)
  | .ok p _ e => some (p, e)
  | .fail _ => none

/-- Average response time as reported by `run_scan` (pc.py lines 283–284):
computed only when at least one request succeeded. -/
def avgResponse (st : Stats) : Option ℚ :=
  if 0 < st.successful_requests then some (st.total_time / st.successful_requests)
  else none


/-- The four request-exception classes caught by `visit_target`
(pc.py lines 121–124).  `requestException` stands for any other subclass of
`requests.RequestException`. -/
inductive ErrKind where
  | timeout
  | proxyError
  | connectionError
  | requestException
deriving DecidableEq

/-- What the network hands back for one HTTP GET: either an HTTP response
(any status code) with its elapsed time, or a transport-level error. -/
inductive NetResult where
  | response (status : Nat) (elapsed : ℚ)
  | netError (kind : ErrKind)
deriving DecidableEq

/-- The triple returned by `visit_target` (pc.py lines 119 and 130):
`(success, status_code, elapsed_time)`. -/
structure Outcome where
  success : Bool
  status : Option Nat
  elapsed : Option ℚ
deriving DecidableEq

/-- Classification done by `visit_target`'s `try/except` (pc.py lines
88–130): any received response yields `(True, status, elapsed)` whatever the
status code; any caught transport error yields `(False, None, None)`. -/
def outcomeOf : NetResult → Outcome
  | .response s e => ⟨true, some s, some e⟩
  | .netError _ => ⟨false, none, none⟩

/-- Embedding of `visit_target` (pc.py lines 79–130) against a stream of
pending network results: the function issues exactly one GET, so it consumes
exactly one stream element and returns the rest untouched — there is no
retry (`max_retries` is accepted and ignored by the source). -/
def visit_target : List NetResult → Outcome × List NetResult
  | [] => (⟨false, none, none⟩, [])
  | r :: rest => (outcomeOf r, rest)

/-- Lift one probe's network result to the outcome the worker merges,
remembering the proxy in use. -/
def outcomeFor (proxy : Option String) (r : NetResult) : POutcome :=
  match r with
  | .response s e => POutcome.ok proxy s e
  | .netError _ => POutcome.fail proxy

/-- The sequence of outcomes a scan records (pc.py lines 212–237): one per
work-queue index, in index order; entry `i` probes through `proxies[i]`.
`env i` is the network's answer to probe `i`.  When `proxies` is empty,
`total_requests = len(proxies) = 0` and no probe at all is performed. -/
def scanOutcomes (proxies : List String) (env : Nat → NetResult) : List POutcome :=
  (List.range proxies.length).map fun i => outcomeFor (some (proxies.getD i "")) (env i)

/-- The output file name (pc.py lines 292–293), parametrised by the
`%Y%m%d_%H%M%S` timestamp string. -/
def outputFileName (ts : String) : String :=
  "working_proxies_" ++ ts ++ ".txt"

/-- The lines written to the output file (pc.py lines 291–300): written only
when the successful-proxy set is non-empty; header with the target domain, a
count line, a separator, then one line per distinct working proxy. -/
def outputLines (domain : String) (st : Stats) : Option (List String) :=
  if st.successful_proxies = [] then none
  else
    some (("Target Domain: " ++ domain) ::
      ("Total Working Proxies Found: " ++ toString st.successful_proxies.length) ::
      "-----------------------" ::
      st.successful_proxies)

/-- Result of one scan: the final statistics, the number of requests issued,
and the output-file lines (`none` when no file is written). -/
structure ScanResult where
  stats : Stats
  total_requests : Nat
  fileLines : Option (List String)

/-- Embedding of the measurement core of `run_scan` (pc.py lines 150–304)
after the work queue `proxies` is in place: every queue entry is probed once
(`env` supplies the network behaviour), outcomes are merged into the
statistics, and the output file is produced only from a non-empty
successful-proxy set.  Called with `proxies = []` this is the direct mode of
the source: `total_requests = len(proxies) = 0`. -/
def run_scan (domain : String) (proxies : List String) (env : Nat → NetResult) : ScanResult :=
  let st := scanStats (scanOutcomes proxies env)
  { stats := st
    total_requests := proxies.length
    fileLines := outputLines (format_domain domain) st }


/-- Local state of one worker thread in the `worker` loop of `run_scan`
(pc.py lines 212–237): about to claim work, probing a claimed index outside
the locks, or terminated. -/
inductive WState where
  | ready
  | probing (idx : Nat)
  | done
deriving DecidableEq

/-- Shared state of the scan for a pool of `N` workers: the shared
`request_count` cursor, each worker's local state, the list of recorded
outcome indices in merge order, and the shared statistics. -/
structure CState (N : Nat) where
  cursor : Nat
  wstate : Fin N → WState
  recorded : List Nat
  stats : Stats

/-- Initial shared state: cursor at 0, all workers about to claim, nothing
recorded, statistics empty. -/
def initCState (N : Nat) : CState N :=
  { cursor := 0, wstate := fun _ => WState.ready, recorded := [], stats := initStats }

/-- One atomic step of worker `w`.  A ready worker executes the whole
`with request_count_lock:` block (pc.py lines 215–219) atomically: it stops
when the cursor has reached `K = total_requests`, otherwise it claims the
entry at the cursor and increments the cursor.  A probing worker finishes
its network call and executes the `with stats_lock:` block (lines 223–237)
atomically, merging the outcome `env i` of its claimed index.  Workers that
are done stay done.  Interleavings are arbitrary: a schedule chooses which
worker steps next. -/
def step (K : Nat) (env : Nat → POutcome) {N : Nat} (st : CState N) (w : Fin N) : CState N :=
  match st.wstate w with
  | WState.ready =>
      if K ≤ st.cursor then { st with wstate := Function.update st.wstate w WState.done }
      else
        { st with
            cursor := st.cursor + 1
            wstate := Function.update st.wstate w (WState.probing st.cursor) }
  | WState.probing i =>
      { st with
          wstate := Function.update st.wstate w WState.ready
          recorded := st.recorded ++ [i]
          stats := updateStats st.stats (env i) }
  | WState.done => st

/-- Run a schedule of worker steps from the initial state. -/
def run (K : Nat) (env : Nat → POutcome) {N : Nat} (σ : List (Fin N)) : CState N :=
  σ.foldl (step K env) (initCState N)

/-- Indices contributed to the in-flight multiset by one worker state. -/
def wContrib : WState → Multiset Nat
  | WState.probing i => {i}
  | _ => 0

/-- The multiset of indices claimed but not yet merged, as a function of
the worker states. -/
def inflightF {N : Nat} (f : Fin N → WState) : Multiset Nat :=
  ∑ w : Fin N, wContrib (f w)

/-- The multiset of indices currently claimed but not yet merged. -/
def inflight {N : Nat} (st : CState N) : Multiset Nat :=
  inflightF st.wstate

/-- Every worker has observed an exhausted cursor and terminated. -/
def AllDone {N : Nat} (st : CState N) : Prop :=
  ∀ w, st.wstate w = WState.done

/-- The inductive invariant of the scan loop: the cursor never passes `K`;
the recorded and in-flight indices together are exactly `0, …, cursor-1`,
each once; a terminated worker proves the cursor reached `K`; and the
statistics are the fold of the recorded outcomes. -/
def Inv (K : Nat) (env : Nat → POutcome) {N : Nat} (st : CState N) : Prop :=
  st.cursor ≤ K ∧
  (st.recorded : Multiset ℕ) + inflight st = (List.range st.cursor : Multiset ℕ) ∧
  ((∃ w, st.wstate w = WState.done) → K ≤ st.cursor) ∧
  st.stats = (st.recorded.map env).foldl updateStats initStats


end PC

namespace PC

/-- Claim C2: `validate_proxy` returns `true` exactly when the string splits
on `':'` into exactly two parts whose second parses as an integer in
`[0, 65535]`; every other string is rejected, and the function is total (the
Python `except` clause means no exception escapes). -/
theorem C2_validator_accepts_iff (s : String) :
    validate_proxy s = true ↔
      ∃ a b, pySplit ':' s.data = [a, b] ∧
        ∃ n : Int, pyInt ⟨b⟩ = some n ∧ 0 ≤ n ∧ n ≤ 65535 := by
  by_cases hs : s = ""
  · subst hs
    constructor
    · intro hv
      exact absurd hv (by decide)
    · rintro ⟨a, b, hab, -⟩
      have he : pySplit ':' ("" : String).data = [[]] := rfl
      rw [he] at hab
      simp at hab
  · unfold validate_proxy
    rw [if_neg hs]
    split
    next hd p2 heq =>
      split
      next port hport =>
        simp only [Bool.and_eq_true, decide_eq_true_eq]
        constructor
        · rintro ⟨h0, h1⟩
          exact ⟨hd, p2, heq, port, hport, h0, h1⟩
        · rintro ⟨a', b', hab, n', hn', h0, h1⟩
          rw [heq] at hab
          simp only [List.cons.injEq, and_true] at hab
          obtain ⟨rfl, rfl⟩ := hab
          rw [hport] at hn'
          cases hn'
          exact ⟨h0, h1⟩
      next hnone =>
        simp only [Bool.false_eq_true, false_iff]
        rintro ⟨a', b', hab, n', hn', -⟩
        rw [heq] at hab
        simp only [List.cons.injEq, and_true] at hab
        obtain ⟨rfl, rfl⟩ := hab
        rw [hnone] at hn'
        cases hn'
    next x hne =>
      simp only [Bool.false_eq_true, false_iff]
      rintro ⟨a', b', hab, n', hn', -⟩
      exact hne a' b' hab

/-- Helper: a prefix of a longer pattern is witnessed on the shorter one:
if `p ++ q` is a prefix of `cs` then so is `p`. -/
theorem isPrefixCs_of_append {p q cs : List Char} (h : isPrefixCs (p ++ q) cs = true) :
    isPrefixCs p cs = true := by
  induction p generalizing cs with
  | nil => rfl
  | cons x xs ih =>
    cases cs with
    | nil => simp [isPrefixCs] at h
    | cons c cs2 =>
      simp only [List.cons_append, isPrefixCs, Bool.and_eq_true] at h ⊢
      exact ⟨h.1, ih h.2⟩

/-- Claim C9 (corrected): the code tests `domain.startswith("http")`, not
"has a scheme".  The `http://` prefix is prepended exactly when the input
does not start with the four characters `http`; in particular every input
already carrying an `http://` or `https://` scheme is left unchanged. -/
theorem C9_format_domain_prefix_rule (d : String) :
    (pyStartsWith d "http" = true → format_domain d = d) ∧
    (pyStartsWith d "http" = false → format_domain d = "http://" ++ d) ∧
    (specHasScheme d = true → format_domain d = d) := by
  refine ⟨fun h => ?_, fun h => ?_, fun h => ?_⟩
  · simp [format_domain, h]
  · simp [format_domain, h]
  · have hp : pyStartsWith d "http" = true := by
      simp only [specHasScheme, Bool.or_eq_true] at h
      rcases h with h1 | h1
      · have e : ("http://" : String).data = ("http" : String).data ++ ("://" : String).data := rfl
        exact isPrefixCs_of_append (q := ("://" : String).data) (by rw [← e]; exact h1)
      · have e : ("https://" : String).data = ("http" : String).data ++ ("s://" : String).data := rfl
        exact isPrefixCs_of_append (q := ("s://" : String).data) (by rw [← e]; exact h1)
    simp [format_domain, hp]

/-- Witness for C9: `example.com` does not start with `http`, and the code
prepends the scheme there. -/
theorem C9_format_domain_prefix_rule_witness :
    pyStartsWith "example.com" "http" = false ∧
      format_domain "example.com" = "http://" ++ "example.com" :=
  ⟨by decide, (C9_format_domain_prefix_rule "example.com").2.1 (by decide)⟩

/-- Counterexample to C9 as stated: `httpbin.org` carries no scheme, yet the
code does not prepend `http://` because the string happens to start with the
four characters `http`. -/
theorem C9_counterexample_httpbin :
    specHasScheme "httpbin.org" = false ∧
      format_domain "httpbin.org" = "httpbin.org" ∧
      "httpbin.org" ≠ "http://" ++ "httpbin.org" :=
  ⟨by decide, by decide, by decide⟩

/-- Claim C10: the validator is lenient exactly as the implicit claim says:
an empty host part is accepted, ports with surrounding whitespace or embedded
underscores are accepted (CPython `int` semantics), and such entries survive
the proxy-file loading loop, i.e. they are scheduled. -/
theorem C10_lenient_validation :
    validate_proxy ":80" = true ∧
      validate_proxy "1.2.3.4: 8080 " = true ∧
      validate_proxy "1.2.3.4:80_80" = true ∧
      loadProxies [":80", "1.2.3.4: 8080 "] = [":80", "1.2.3.4: 8080"] :=
  ⟨by decide, by decide, by decide, by decide⟩

/-- Rewriting the source's strict-`<` update into `min`. -/
theorem ite_lt_eq_min {α : Type*} [LinearOrder α] (a b : α) :
    (if b < a then b else a) = min a b := by
  rcases le_or_lt a b with h | h
  · rw [if_neg (not_lt.mpr h), min_eq_left h]
  · rw [if_pos h, min_eq_right h.le]

/-- Rewriting the source's strict-`>` update into `max`. -/
theorem ite_lt_eq_max {α : Type*} [LinearOrder α] (a b : α) :
    (if a < b then b else a) = max a b := by
  rcases le_or_lt b a with h | h
  · rw [if_neg (not_lt.mpr h), max_eq_left h]
  · rw [if_pos h, max_eq_right h.le]

/-- Replaying outcomes adds one success per transport-level success. -/
theorem foldl_stats_succ (l : List POutcome) :
    ∀ st : Stats, (l.foldl updateStats st).successful_requests
      = st.successful_requests + l.countP isOk := by
  induction l with
  | nil => intro st; simp
  | cons o t ih =>
    intro st
    rw [List.foldl_cons, ih, List.countP_cons]
    cases o with
    | ok p s e =>
      simp [updateStats, isOk]
      omega
    | fail p =>
      simp [updateStats, isOk]

/-- Replaying outcomes adds one failure per transport-level failure. -/
theorem foldl_stats_failed (l : List POutcome) :
    ∀ st : Stats, (l.foldl updateStats st).failed_requests
      = st.failed_requests + l.countP (fun o => !isOk o) := by
  induction l with
  | nil => intro st; simp
  | cons o t ih =>
    intro st
    rw [List.foldl_cons, ih, List.countP_cons]
    cases o with
    | ok p s e =>
      simp [updateStats, isOk]
    | fail p =>
      simp [updateStats, isOk]
      omega

/-- Replaying outcomes counts, per status code, the successes carrying it. -/
theorem foldl_stats_codes (l : List POutcome) (c : Nat) :
    ∀ st : Stats, (l.foldl updateStats st).status_codes c
      = st.status_codes c + l.countP (isOkStatus c) := by
  induction l with
  | nil => intro st; simp
  | cons o t ih =>
    intro st
    rw [List.foldl_cons, ih, List.countP_cons]
    cases o with
    | ok p s e =>
      by_cases hcs : c = s
      · simp [updateStats, isOkStatus, hcs]
        omega
      · simp [updateStats, isOkStatus, hcs]
    | fail p =>
      simp [updateStats, isOkStatus]

/-- Replaying outcomes accumulates the successful elapsed times. -/
theorem foldl_stats_total (l : List POutcome) :
    ∀ st : Stats, (l.foldl updateStats st).total_time
      = st.total_time + (okElapsedQ l).sum := by
  induction l with
  | nil => intro st; simp [okElapsedQ]
  | cons o t ih =>
    intro st
    rw [List.foldl_cons, ih]
    cases o with
    | ok p s e =>
      simp only [updateStats, okElapsedQ, List.filterMap_cons, List.sum_cons]
      ring
    | fail p =>
      simp only [updateStats, okElapsedQ, List.filterMap_cons]

/-- The fastest elapsed time is the running minimum of the successful
elapsed times, seeded with the current value. -/
theorem foldl_stats_fast_time (l : List POutcome) :
    ∀ st : Stats, (l.foldl updateStats st).fastest_proxy.2
      = (okElapsedW l).foldl min st.fastest_proxy.2 := by
  induction l with
  | nil => intro st; simp [okElapsedW, okElapsedQ]
  | cons o t ih =>
    intro st
    rw [List.foldl_cons, ih]
    cases o with
    | ok p s e =>
      have hW : okElapsedW (POutcome.ok p s e :: t) = (e : WithTop ℚ) :: okElapsedW t := rfl
      have h2 : (updateStats st (POutcome.ok p s e)).fastest_proxy.2
          = min st.fastest_proxy.2 (e : WithTop ℚ) := by
        simp only [updateStats]
        rw [apply_ite Prod.snd]
        exact ite_lt_eq_min _ _
      rw [hW, List.foldl_cons, h2]
    | fail p =>
      have hW : okElapsedW (POutcome.fail p :: t) = okElapsedW t := rfl
      have h2 : (updateStats st (POutcome.fail p)).fastest_proxy = st.fastest_proxy := rfl
      rw [hW, h2]

/-- The slowest elapsed time is the running maximum of the successful
elapsed times, seeded with the current value. -/
theorem foldl_stats_slow_time (l : List POutcome) :
    ∀ st : Stats, (l.foldl updateStats st).slowest_proxy.2
      = (okElapsedQ l).foldl max st.slowest_proxy.2 := by
  induction l with
  | nil => intro st; simp [okElapsedQ]
  | cons o t ih =>
    intro st
    rw [List.foldl_cons, ih]
    cases o with
    | ok p s e =>
      have hQ : okElapsedQ (POutcome.ok p s e :: t) = e :: okElapsedQ t := rfl
      have h2 : (updateStats st (POutcome.ok p s e)).slowest_proxy.2
          = max st.slowest_proxy.2 e := by
        simp only [updateStats]
        rw [apply_ite Prod.snd]
        exact ite_lt_eq_max _ _
      rw [hQ, List.foldl_cons, h2]
    | fail p =>
      have hQ : okElapsedQ (POutcome.fail p :: t) = okElapsedQ t := rfl
      have h2 : (updateStats st (POutcome.fail p)).slowest_proxy = st.slowest_proxy := rfl
      rw [hQ, h2]

/-- Left folds of `min` are invariant under permutation of the list. -/
theorem foldl_min_of_perm {α : Type*} [LinearOrder α] {l₁ l₂ : List α}
    (h : l₁.Perm l₂) (a : α) : l₁.foldl min a = l₂.foldl min a :=
  h.foldl_eq' (fun x _ y _ z => by rw [min_right_comm]) a

/-- Left folds of `max` are invariant under permutation of the list. -/
theorem foldl_max_of_perm {α : Type*} [LinearOrder α] {l₁ l₂ : List α}
    (h : l₁.Perm l₂) (a : α) : l₁.foldl max a = l₂.foldl max a :=
  h.foldl_eq' (fun x _ y _ z => sup_right_comm z x y) a

/-- One merge step never decreases the recorded slowest time. -/
theorem update_slow_le (st : Stats) (o : POutcome) :
    st.slowest_proxy.2 ≤ (updateStats st o).slowest_proxy.2 := by
  cases o with
  | fail p => exact le_rfl
  | ok p s e =>
    simp only [updateStats]
    by_cases hgt : st.slowest_proxy.2 < e
    · rw [if_pos hgt]
      exact hgt.le
    · rw [if_neg hgt]

/-- The fastest record after a replay is either the seed record or the
candidate of some replayed outcome. -/
theorem foldl_fast_mem (l : List POutcome) :
    ∀ st : Stats, (l.foldl updateStats st).fastest_proxy = st.fastest_proxy ∨
      ∃ o ∈ l, fastCand o = some (l.foldl updateStats st).fastest_proxy := by
  induction l with
  | nil => intro st; exact Or.inl rfl
  | cons o t ih =>
    intro st
    rw [List.foldl_cons]
    rcases ih (updateStats st o) with h | ⟨o2, ho2, hc⟩
    · rw [h]
      cases o with
      | fail p => exact Or.inl rfl
      | ok p s e =>
        by_cases hlt : (e : WithTop ℚ) < st.fastest_proxy.2
        · refine Or.inr ⟨POutcome.ok p s e, List.mem_cons_self _ _, ?_⟩
          simp only [updateStats, fastCand]
          rw [if_pos hlt]
        · refine Or.inl ?_
          simp only [updateStats]
          rw [if_neg hlt]
    · exact Or.inr ⟨o2, List.mem_cons_of_mem _ ho2, hc⟩

/-- The slowest record after a replay is either the seed record or the
candidate of some replayed outcome that strictly raised the maximum. -/
theorem foldl_slow_mem (l : List POutcome) :
    ∀ st : Stats, (l.foldl updateStats st).slowest_proxy = st.slowest_proxy ∨
      ∃ o ∈ l, slowCand o = some (l.foldl updateStats st).slowest_proxy ∧
        st.slowest_proxy.2 < (l.foldl updateStats st).slowest_proxy.2 := by
  induction l with
  | nil => intro st; exact Or.inl rfl
  | cons o t ih =>
    intro st
    rw [List.foldl_cons]
    rcases ih (updateStats st o) with h | ⟨o2, ho2, hc, hlt2⟩
    · rw [h]
      cases o with
      | fail p => exact Or.inl rfl
      | ok p s e =>
        by_cases hgt : st.slowest_proxy.2 < e
        · refine Or.inr ⟨POutcome.ok p s e, List.mem_cons_self _ _, ?_, ?_⟩
          · simp only [updateStats, slowCand]
            rw [if_pos hgt]
          · simp only [updateStats]
            rw [if_pos hgt]
            exact hgt
        · refine Or.inl ?_
          simp only [updateStats]
          rw [if_neg hgt]
    · exact Or.inr ⟨o2, List.mem_cons_of_mem _ ho2, hc,
        lt_of_le_of_lt (update_slow_le st o) hlt2⟩

/-- The times of the fastest-candidates are the successful elapsed times. -/
theorem map_snd_fastCand (l : List POutcome) :
    (l.filterMap fastCand).map Prod.snd = okElapsedW l := by
  induction l with
  | nil => rfl
  | cons o t ih =>
    cases o with
    | ok p s e =>
      have h1 : List.filterMap fastCand (POutcome.ok p s e :: t)
          = (p, (e : WithTop ℚ)) :: List.filterMap fastCand t := rfl
      have h2 : okElapsedW (POutcome.ok p s e :: t) = (e : WithTop ℚ) :: okElapsedW t := rfl
      rw [h1, h2, List.map_cons, ih]
    | fail p =>
      have h1 : List.filterMap fastCand (POutcome.fail p :: t)
          = List.filterMap fastCand t := rfl
      have h2 : okElapsedW (POutcome.fail p :: t) = okElapsedW t := rfl
      rw [h1, h2, ih]

/-- The times of the slowest-candidates are the successful elapsed times. -/
theorem map_snd_slowCand (l : List POutcome) :
    (l.filterMap slowCand).map Prod.snd = okElapsedQ l := by
  induction l with
  | nil => rfl
  | cons o t ih =>
    cases o with
    | ok p s e =>
      have h1 : List.filterMap slowCand (POutcome.ok p s e :: t)
          = (p, e) :: List.filterMap slowCand t := rfl
      have h2 : okElapsedQ (POutcome.ok p s e :: t) = e :: okElapsedQ t := rfl
      rw [h1, h2, List.map_cons, ih]
    | fail p =>
      have h1 : List.filterMap slowCand (POutcome.fail p :: t)
          = List.filterMap slowCand t := rfl
      have h2 : okElapsedQ (POutcome.fail p :: t) = okElapsedQ t := rfl
      rw [h1, h2, ih]

/-- Claim C4 (corrected): replaying the same multiset of outcomes in any
order yields identical success and failure counts, identical status-code
histogram, and identical fastest/slowest elapsed times (extremum selection
compares stored values exactly, also in the source's floats); the full
fastest/slowest records (proxy included) agree whenever no two successful
outcomes tie on elapsed time.  No order-independence is claimed for the
cumulative latency: the source accumulates it in Python floats, whose
per-addition rounding makes the accumulated sum order-dependent, and the
exact-rational `total_time` field deliberately does not speak for it. -/
theorem C4_stats_merge_order_independent {l₁ l₂ : List POutcome} (h : l₁.Perm l₂) :
    (scanStats l₁).successful_requests = (scanStats l₂).successful_requests ∧
    (scanStats l₁).failed_requests = (scanStats l₂).failed_requests ∧
    (∀ c, (scanStats l₁).status_codes c = (scanStats l₂).status_codes c) ∧
    (scanStats l₁).fastest_proxy.2 = (scanStats l₂).fastest_proxy.2 ∧
    (scanStats l₁).slowest_proxy.2 = (scanStats l₂).slowest_proxy.2 ∧
    ((okElapsedQ l₁).Nodup →
      (scanStats l₁).fastest_proxy = (scanStats l₂).fastest_proxy ∧
      (scanStats l₁).slowest_proxy = (scanStats l₂).slowest_proxy) := by
  have hQ : (okElapsedQ l₁).Perm (okElapsedQ l₂) := h.filterMap _
  have hW : (okElapsedW l₁).Perm (okElapsedW l₂) := by
    unfold okElapsedW
    exact hQ.map _
  have hfastT : (scanStats l₁).fastest_proxy.2 = (scanStats l₂).fastest_proxy.2 := by
    rw [scanStats, scanStats, foldl_stats_fast_time, foldl_stats_fast_time]
    exact foldl_min_of_perm hW _
  have hslowT : (scanStats l₁).slowest_proxy.2 = (scanStats l₂).slowest_proxy.2 := by
    rw [scanStats, scanStats, foldl_stats_slow_time, foldl_stats_slow_time]
    exact foldl_max_of_perm hQ _
  refine ⟨?_, ?_, ?_, hfastT, hslowT, ?_⟩
  · rw [scanStats, scanStats, foldl_stats_succ, foldl_stats_succ, h.countP_eq]
  · rw [scanStats, scanStats, foldl_stats_failed, foldl_stats_failed, h.countP_eq]
  · intro c
    rw [scanStats, scanStats, foldl_stats_codes, foldl_stats_codes, h.countP_eq]
  · intro hnd
    have hfT : (List.foldl updateStats initStats l₁).fastest_proxy.2
        = (List.foldl updateStats initStats l₂).fastest_proxy.2 := by
      have hT := hfastT
      rw [scanStats, scanStats] at hT
      exact hT
    have hsT : (List.foldl updateStats initStats l₁).slowest_proxy.2
        = (List.foldl updateStats initStats l₂).slowest_proxy.2 := by
      have hT := hslowT
      rw [scanStats, scanStats] at hT
      exact hT
    constructor
    · rw [scanStats, scanStats]
      rcases foldl_fast_mem l₁ initStats with h1 | ⟨o1, ho1, hc1⟩
      · rcases foldl_fast_mem l₂ initStats with h2 | ⟨o2, ho2, hc2⟩
        · rw [h1, h2]
        · exfalso
          cases o2 with
          | fail p => exact Option.noConfusion hc2
          | ok p s e =>
            have he2 : (List.foldl updateStats initStats l₂).fastest_proxy
                = (p, (e : WithTop ℚ)) := (Option.some.inj hc2).symm
            have hcontr : ((e : WithTop ℚ)) = (⊤ : WithTop ℚ) := by
              have hT := hfT
              rw [h1, he2] at hT
              exact hT.symm
            exact WithTop.coe_ne_top hcontr
      · rcases foldl_fast_mem l₂ initStats with h2 | ⟨o2, ho2, hc2⟩
        · exfalso
          cases o1 with
          | fail p => exact Option.noConfusion hc1
          | ok p s e =>
            have he1 : (List.foldl updateStats initStats l₁).fastest_proxy
                = (p, (e : WithTop ℚ)) := (Option.some.inj hc1).symm
            have hcontr : ((e : WithTop ℚ)) = (⊤ : WithTop ℚ) := by
              have hT := hfT
              rw [he1, h2] at hT
              exact hT
            exact WithTop.coe_ne_top hcontr
        · have m1 : (List.foldl updateStats initStats l₁).fastest_proxy
              ∈ l₁.filterMap fastCand := List.mem_filterMap.mpr ⟨o1, ho1, hc1⟩
          have m2 : (List.foldl updateStats initStats l₂).fastest_proxy
              ∈ l₁.filterMap fastCand :=
            ((h.filterMap fastCand).mem_iff).mpr (List.mem_filterMap.mpr ⟨o2, ho2, hc2⟩)
          have hndW : ((l₁.filterMap fastCand).map Prod.snd).Nodup := by
            rw [map_snd_fastCand]
            unfold okElapsedW
            exact hnd.map WithTop.coe_injective
          exact List.inj_on_of_nodup_map hndW m1 m2 hfT
    · rw [scanStats, scanStats]
      rcases foldl_slow_mem l₁ initStats with h1 | ⟨o1, ho1, hc1, hlt1⟩
      · rcases foldl_slow_mem l₂ initStats with h2 | ⟨o2, ho2, hc2, hlt2⟩
        · rw [h1, h2]
        · exfalso
          have hT := hsT
          rw [h1] at hT
          rw [← hT] at hlt2
          exact lt_irrefl _ hlt2
      · rcases foldl_slow_mem l₂ initStats with h2 | ⟨o2, ho2, hc2, hlt2⟩
        · exfalso
          have hT := hsT
          rw [h2] at hT
          rw [hT] at hlt1
          exact lt_irrefl _ hlt1
        · have m1 : (List.foldl updateStats initStats l₁).slowest_proxy
              ∈ l₁.filterMap slowCand := List.mem_filterMap.mpr ⟨o1, ho1, hc1⟩
          have m2 : (List.foldl updateStats initStats l₂).slowest_proxy
              ∈ l₁.filterMap slowCand :=
            ((h.filterMap slowCand).mem_iff).mpr (List.mem_filterMap.mpr ⟨o2, ho2, hc2⟩)
          have hndQ : ((l₁.filterMap slowCand).map Prod.snd).Nodup := by
            rw [map_snd_slowCand]
            exact hnd
          exact List.inj_on_of_nodup_map hndQ m1 m2 hsT

/-- Claim C3: a transport-level failure of any caught kind yields
`(False, None, None)` and a received response yields
`(True, status, elapsed)` whatever the status code; in both cases exactly
one network attempt is consumed — no retry. -/
theorem C3_probe_classification (r : NetResult) (rest : List NetResult) :
    (∀ k, r = NetResult.netError k →
      visit_target (r :: rest) = (⟨false, none, none⟩, rest)) ∧
    (∀ s e, r = NetResult.response s e →
      visit_target (r :: rest) = (⟨true, some s, some e⟩, rest)) := by
  constructor
  · rintro k rfl
    rfl
  · rintro s e rfl
    rfl

/-- Witness for C3: a timeout gives a terminal failure outcome, and an HTTP
503 response still counts as a transport-level success. -/
theorem C3_probe_classification_witness :
    visit_target [NetResult.netError ErrKind.timeout] = (⟨false, none, none⟩, []) ∧
    visit_target [NetResult.response 503 2] = (⟨true, some 503, some 2⟩, []) :=
  ⟨(C3_probe_classification _ _).1 ErrKind.timeout rfl,
    (C3_probe_classification _ _).2 503 2 rfl⟩

/-- Counterexample to C4 as stated: two successful outcomes that tie on
elapsed time, replayed in the two possible orders, give different fastest
and slowest (proxy, duration) records — the proxy component depends on the
interleaving. -/
theorem C4_counterexample_tied_extrema :
    ([POutcome.ok (some "1.1.1.1:80") 200 1, POutcome.ok (some "2.2.2.2:80") 200 1]).Perm
        [POutcome.ok (some "2.2.2.2:80") 200 1, POutcome.ok (some "1.1.1.1:80") 200 1] ∧
    (scanStats [POutcome.ok (some "1.1.1.1:80") 200 1,
        POutcome.ok (some "2.2.2.2:80") 200 1]).fastest_proxy
      ≠ (scanStats [POutcome.ok (some "2.2.2.2:80") 200 1,
          POutcome.ok (some "1.1.1.1:80") 200 1]).fastest_proxy ∧
    (scanStats [POutcome.ok (some "1.1.1.1:80") 200 1,
        POutcome.ok (some "2.2.2.2:80") 200 1]).slowest_proxy
      ≠ (scanStats [POutcome.ok (some "2.2.2.2:80") 200 1,
          POutcome.ok (some "1.1.1.1:80") 200 1]).slowest_proxy :=
  ⟨List.Perm.swap _ _ _, by decide, by decide⟩

/-- Witness for C4: with distinct elapsed times the full extrema records
agree for a transposed replay. -/
theorem C4_stats_merge_order_independent_witness :
    (scanStats [POutcome.ok (some "1.1.1.1:80") 200 1,
        POutcome.ok (some "2.2.2.2:80") 200 2]).fastest_proxy
      = (scanStats [POutcome.ok (some "2.2.2.2:80") 200 2,
          POutcome.ok (some "1.1.1.1:80") 200 1]).fastest_proxy ∧
    (scanStats [POutcome.ok (some "1.1.1.1:80") 200 1,
        POutcome.ok (some "2.2.2.2:80") 200 2]).slowest_proxy
      = (scanStats [POutcome.ok (some "2.2.2.2:80") 200 2,
          POutcome.ok (some "1.1.1.1:80") 200 1]).slowest_proxy :=
  (C4_stats_merge_order_independent (List.Perm.swap _ _ _)).2.2.2.2.2 (by decide)

/-- Claim C6 (corrected): extrema are tracked by strict `<` / `>` against
running extrema initialised to `+∞` and `0`; hence the first successful
outcome always sets the fastest record, but it sets the slowest record only
when its elapsed time is strictly positive — at elapsed time exactly `0`
the slowest record stays `(None, 0)`. -/
theorem C6_first_success_extrema (p : Option String) (s : Nat) (e : ℚ) :
    initStats.fastest_proxy = (none, ⊤) ∧
    initStats.slowest_proxy = (none, 0) ∧
    (updateStats initStats (POutcome.ok p s e)).fastest_proxy = (p, (e : WithTop ℚ)) ∧
    (0 < e → (updateStats initStats (POutcome.ok p s e)).slowest_proxy = (p, e)) ∧
    (e ≤ 0 → (updateStats initStats (POutcome.ok p s e)).slowest_proxy = (none, 0)) := by
  refine ⟨rfl, rfl, ?_, fun h0 => ?_, fun hle => ?_⟩
  · have hc : (e : WithTop ℚ) < initStats.fastest_proxy.2 := WithTop.coe_lt_top e
    simp only [updateStats]
    rw [if_pos hc]
  · have hc : initStats.slowest_proxy.2 < e := h0
    simp only [updateStats]
    rw [if_pos hc]
  · have hc : ¬ initStats.slowest_proxy.2 < e := not_lt.mpr hle
    simp only [updateStats]
    rw [if_neg hc]
    rfl

/-- Witness for C6: a first success in 1 second sets both records. -/
theorem C6_first_success_extrema_witness :
    (updateStats initStats (POutcome.ok (some "9.9.9.9:3128") 200 1)).fastest_proxy
      = (some "9.9.9.9:3128", ((1 : ℚ) : WithTop ℚ)) ∧
    (updateStats initStats (POutcome.ok (some "9.9.9.9:3128") 200 1)).slowest_proxy
      = (some "9.9.9.9:3128", 1) :=
  ⟨(C6_first_success_extrema (some "9.9.9.9:3128") 200 1).2.2.1,
    (C6_first_success_extrema (some "9.9.9.9:3128") 200 1).2.2.2.1 (by decide)⟩

/-- Counterexample to C6 as stated: a first successful outcome with elapsed
time exactly `0 ≥ 0` sets the fastest record but leaves the slowest record
at its initial `(None, 0)` — it does not set both. -/
theorem C6_counterexample_zero_elapsed :
    (updateStats initStats (POutcome.ok (some "9.9.9.9:3128") 200 0)).fastest_proxy
      = (some "9.9.9.9:3128", ((0 : ℚ) : WithTop ℚ)) ∧
    (updateStats initStats (POutcome.ok (some "9.9.9.9:3128") 200 0)).slowest_proxy
      = (none, 0) ∧
    (updateStats initStats (POutcome.ok (some "9.9.9.9:3128") 200 0)).slowest_proxy.1
      ≠ some "9.9.9.9:3128" :=
  ⟨by decide, by decide, by decide⟩

/-- Claim C7: the reported average latency is the cumulative successful
latency divided by the success count, and it is produced exactly when that
count is positive; with zero successes nothing is computed, so no division
by zero occurs. -/
theorem C7_average_latency (l : List POutcome) :
    (0 < l.countP isOk →
      avgResponse (scanStats l) = some ((okElapsedQ l).sum / (l.countP isOk : ℚ))) ∧
    (l.countP isOk = 0 → avgResponse (scanStats l) = none) := by
  have hs : (scanStats l).successful_requests = l.countP isOk := by
    rw [scanStats, foldl_stats_succ]
    simp [initStats]
  have ht : (scanStats l).total_time = (okElapsedQ l).sum := by
    rw [scanStats, foldl_stats_total]
    simp [initStats]
  constructor
  · intro h
    have hpos : 0 < (scanStats l).successful_requests := by
      rw [hs]
      exact h
    rw [avgResponse, if_pos hpos, hs, ht]
  · intro h
    have hz : ¬ 0 < (scanStats l).successful_requests := by
      rw [hs, h]
      exact lt_irrefl 0
    rw [avgResponse, if_neg hz]

/-- Witness for C7: one success and one failure give an average over the
single success. -/
theorem C7_average_latency_witness :
    avgResponse (scanStats [POutcome.ok (some "1.1.1.1:80") 200 1, POutcome.fail none])
      = some ((okElapsedQ [POutcome.ok (some "1.1.1.1:80") 200 1, POutcome.fail none]).sum
          / (([POutcome.ok (some "1.1.1.1:80") 200 1, POutcome.fail none].countP isOk : Nat) : ℚ)) :=
  (C7_average_latency _).1 (by decide)


/-- Claim C5 (corrected): with no proxy and no proxy list, `run_scan` sets
`total_requests = len(proxies) = 0`, so the worker loop records no outcome
at all: every counter is zero, no average is computed, and no output file is
written. -/
theorem C5_direct_mode_records_nothing (domain : String) (env : Nat → NetResult) :
    (run_scan domain [] env).total_requests = 0 ∧
    (run_scan domain [] env).stats.successful_requests = 0 ∧
    (run_scan domain [] env).stats.failed_requests = 0 ∧
    (∀ c, (run_scan domain [] env).stats.status_codes c = 0) ∧
    avgResponse (run_scan domain [] env).stats = none ∧
    (run_scan domain [] env).fileLines = none :=
  ⟨rfl, rfl, rfl, fun _ => rfl, rfl, rfl⟩

/-- Counterexample to C5 as stated: a direct-mode scan whose target would
answer HTTP 200 in 0.3 s still records zero probes — the success counter is
0, not 1, and no 200 is entered into the histogram. -/
theorem C5_counterexample_direct_zero_probes :
    (run_scan "example.com" [] (fun _ => NetResult.response 200 (3 / 10))).stats.successful_requests
        = 0 ∧
    (run_scan "example.com" [] (fun _ => NetResult.response 200 (3 / 10))).stats.successful_requests
        ≠ 1 ∧
    (run_scan "example.com" [] (fun _ => NetResult.response 200 (3 / 10))).stats.status_codes 200
        = 0 ∧
    (run_scan "example.com" [] (fun _ => NetResult.response 200 (3 / 10))).total_requests = 0 :=
  ⟨rfl, by decide, rfl, rfl⟩

/-- A validated proxy string is non-empty (the validator rejects falsy
input first). -/
theorem validate_proxy_ne_empty {p : String} (h : validate_proxy p = true) : p ≠ "" := by
  intro he
  rw [he] at h
  exact absurd h (by decide)

/-- Membership in the Python-set model: inserting yields the old members
plus the new one. -/
theorem mem_insertProxy (l : List String) (x q : String) :
    q ∈ insertProxy l x ↔ q ∈ l ∨ q = x := by
  unfold insertProxy
  by_cases hx : x ∈ l
  · rw [if_pos hx]
    constructor
    · exact Or.inl
    · rintro (h | rfl)
      · exact h
      · exact hx
  · rw [if_neg hx]
    simp [List.mem_append]

/-- The set model stays duplicate-free under insertion. -/
theorem nodup_insertProxy (l : List String) (x : String) (h : l.Nodup) :
    (insertProxy l x).Nodup := by
  unfold insertProxy
  by_cases hx : x ∈ l
  · rw [if_pos hx]
    exact h
  · rw [if_neg hx, List.nodup_append]
    exact ⟨h, List.nodup_singleton x,
      fun a ha hax => hx ((List.mem_singleton.mp hax) ▸ ha)⟩

/-- One merge step adds a proxy to the successful set exactly for a
status-200 success through a truthy proxy. -/
theorem update_proxies_mem (st : Stats) (o : POutcome) (q : String) :
    q ∈ (updateStats st o).successful_proxies ↔
      q ∈ st.successful_proxies ∨
        ∃ p e, o = POutcome.ok (some p) 200 e ∧ p ≠ "" ∧ format_proxy p = q := by
  cases o with
  | fail pr =>
    constructor
    · exact Or.inl
    · rintro (hq | ⟨p, e, heq, -, -⟩)
      · exact hq
      · exact POutcome.noConfusion heq
  | ok pr s e0 =>
    cases pr with
    | none =>
      constructor
      · exact Or.inl
      · rintro (hq | ⟨p, e, heq, -, -⟩)
        · exact hq
        · injection heq with h1 h2 h3
          exact Option.noConfusion h1
    | some p0 =>
      by_cases hc : s = 200 ∧ p0 ≠ ""
      · have he : (updateStats st (POutcome.ok (some p0) s e0)).successful_proxies
            = insertProxy st.successful_proxies (format_proxy p0) := by
          simp only [updateStats]
          rw [if_pos hc]
        rw [he, mem_insertProxy]
        constructor
        · rintro (hq | rfl)
          · exact Or.inl hq
          · exact Or.inr ⟨p0, e0, by rw [hc.1], hc.2, rfl⟩
        · rintro (hq | ⟨p, e, heq, hp, hf⟩)
          · exact Or.inl hq
          · injection heq with h1 h2 h3
            obtain rfl : p0 = p := Option.some.inj h1
            exact Or.inr hf.symm
      · have he : (updateStats st (POutcome.ok (some p0) s e0)).successful_proxies
            = st.successful_proxies := by
          simp only [updateStats]
          rw [if_neg hc]
        rw [he]
        constructor
        · exact Or.inl
        · rintro (hq | ⟨p, e, heq, hp, hf⟩)
          · exact hq
          · injection heq with h1 h2 h3
            obtain rfl : p0 = p := Option.some.inj h1
            exact absurd ⟨h2, hp⟩ hc

/-- One merge step keeps the successful-proxy set duplicate-free. -/
theorem update_proxies_nodup (st : Stats) (o : POutcome)
    (h : st.successful_proxies.Nodup) : (updateStats st o).successful_proxies.Nodup := by
  cases o with
  | fail pr => exact h
  | ok pr s e =>
    cases pr with
    | none => exact h
    | some p0 =>
      by_cases hc : s = 200 ∧ p0 ≠ ""
      · have he : (updateStats st (POutcome.ok (some p0) s e)).successful_proxies
            = insertProxy st.successful_proxies (format_proxy p0) := by
          simp only [updateStats]
          rw [if_pos hc]
        rw [he]
        exact nodup_insertProxy _ _ h
      · have he : (updateStats st (POutcome.ok (some p0) s e)).successful_proxies
            = st.successful_proxies := by
          simp only [updateStats]
          rw [if_neg hc]
        rw [he]
        exact h

/-- A replay adds to the successful-proxy set exactly the normalised
proxies of status-200 successes with truthy proxies. -/
theorem foldl_proxies_mem (l : List POutcome) :
    ∀ (st : Stats) (q : String),
      q ∈ (l.foldl updateStats st).successful_proxies ↔
        q ∈ st.successful_proxies ∨
          ∃ o ∈ l, ∃ p e, o = POutcome.ok (some p) 200 e ∧ p ≠ "" ∧ format_proxy p = q := by
  induction l with
  | nil =>
    intro st q
    simp
  | cons o t ih =>
    intro st q
    rw [List.foldl_cons, ih, update_proxies_mem]
    constructor
    · rintro ((hq | ⟨p, e, rfl, hp, hf⟩) | ⟨o2, ho2, hrest⟩)
      · exact Or.inl hq
      · exact Or.inr ⟨_, List.mem_cons_self _ _, p, e, rfl, hp, hf⟩
      · exact Or.inr ⟨o2, List.mem_cons_of_mem _ ho2, hrest⟩
    · rintro (hq | ⟨o2, ho2, hrest⟩)
      · exact Or.inl (Or.inl hq)
      · rcases List.mem_cons.mp ho2 with rfl | ho2t
        · exact Or.inl (Or.inr hrest)
        · exact Or.inr ⟨o2, ho2t, hrest⟩

/-- A replay keeps the successful-proxy set duplicate-free. -/
theorem foldl_proxies_nodup (l : List POutcome) :
    ∀ st : Stats, st.successful_proxies.Nodup →
      (l.foldl updateStats st).successful_proxies.Nodup := by
  induction l with
  | nil => intro st h; exact h
  | cons o t ih =>
    intro st h
    rw [List.foldl_cons]
    exact ih _ (update_proxies_nodup st o h)

/-- The successful-proxy set of a scan holds precisely the normalised queue
entries whose probe returned HTTP 200. -/
theorem scan_proxies_mem (proxies : List String) (env : Nat → NetResult)
    (hv : ∀ p ∈ proxies, validate_proxy p = true) (q : String) :
    q ∈ (scanStats (scanOutcomes proxies env)).successful_proxies ↔
      ∃ i, i < proxies.length ∧ (∃ e, env i = NetResult.response 200 e) ∧
        format_proxy (proxies.getD i "") = q := by
  rw [scanStats, foldl_proxies_mem]
  simp only [initStats, List.not_mem_nil, false_or]
  constructor
  · rintro ⟨o, ho, p, e, rfl, hp, hf⟩
    rw [scanOutcomes] at ho
    rcases List.mem_map.mp ho with ⟨i, hi, heq⟩
    have hilt : i < proxies.length := List.mem_range.mp hi
    cases hr : env i with
    | netError k =>
      rw [hr] at heq
      exact absurd heq (by simp [outcomeFor])
    | response s e2 =>
      rw [hr] at heq
      have heq2 : POutcome.ok (some (proxies.getD i "")) s e2
          = POutcome.ok (some p) 200 e := heq
      injection heq2 with h1 h2 h3
      refine ⟨i, hilt, ⟨e2, by rw [hr, h2]⟩, ?_⟩
      rw [Option.some.inj h1]
      exact hf
  · rintro ⟨i, hilt, ⟨e, hr⟩, hf⟩
    have hpm : proxies.getD i "" ∈ proxies := by
      rw [List.getD_eq_getElem?_getD, List.getElem?_eq_getElem hilt, Option.getD_some]
      exact List.getElem_mem hilt
    refine ⟨outcomeFor (some (proxies.getD i "")) (env i), ?_, proxies.getD i "", e, ?_, ?_, hf⟩
    · rw [scanOutcomes]
      exact List.mem_map.mpr ⟨i, List.mem_range.mpr hilt, rfl⟩
    · rw [hr]
      rfl
    · exact validate_proxy_ne_empty (hv _ hpm)

/-- Claim C8: the output file is written iff at least one scheduled proxy
produced an HTTP 200 response; when written its lines are the target-domain
header, a count line, a separator, and then exactly one line per distinct
working proxy — the line set is duplicate-free and holds precisely the
normalised proxies that returned 200. -/
theorem C8_output_file (domain : String) (proxies : List String) (env : Nat → NetResult)
    (hv : ∀ p ∈ proxies, validate_proxy p = true) :
    ((run_scan domain proxies env).fileLines ≠ none ↔
      ∃ i, i < proxies.length ∧ ∃ e, env i = NetResult.response 200 e) ∧
    ∀ ls, (run_scan domain proxies env).fileLines = some ls →
      ∃ W : List String,
        ls = ("Target Domain: " ++ format_domain domain)
          :: ("Total Working Proxies Found: " ++ toString W.length)
          :: "-----------------------" :: W ∧
        W.Nodup ∧
        ∀ q, q ∈ W ↔ ∃ i, i < proxies.length ∧
          (∃ e, env i = NetResult.response 200 e) ∧ format_proxy (proxies.getD i "") = q := by
  have hmem := scan_proxies_mem proxies env hv
  have hfl : (run_scan domain proxies env).fileLines
      = outputLines (format_domain domain) (scanStats (scanOutcomes proxies env)) := rfl
  constructor
  · rw [hfl]
    constructor
    · intro hne
      by_cases hE : (scanStats (scanOutcomes proxies env)).successful_proxies = []
      · rw [outputLines, if_pos hE] at hne
        exact absurd rfl hne
      · rcases List.exists_mem_of_ne_nil _ hE with ⟨q, hq⟩
        rcases (hmem q).mp hq with ⟨i, hilt, h200, -⟩
        exact ⟨i, hilt, h200⟩
    · rintro ⟨i, hilt, e, hr⟩
      have hqmem : format_proxy (proxies.getD i "")
          ∈ (scanStats (scanOutcomes proxies env)).successful_proxies :=
        (hmem _).mpr ⟨i, hilt, ⟨e, hr⟩, rfl⟩
      have hE : (scanStats (scanOutcomes proxies env)).successful_proxies ≠ [] := by
        intro h0
        rw [h0] at hqmem
        exact List.not_mem_nil _ hqmem
      rw [outputLines, if_neg hE]
      simp
  · intro ls hls
    rw [hfl] at hls
    have hE : (scanStats (scanOutcomes proxies env)).successful_proxies ≠ [] := by
      intro h0
      rw [outputLines, if_pos h0] at hls
      exact Option.noConfusion hls
    rw [outputLines, if_neg hE] at hls
    have hls2 := Option.some.inj hls
    refine ⟨(scanStats (scanOutcomes proxies env)).successful_proxies, hls2.symm, ?_, hmem⟩
    rw [scanStats]
    exact foldl_proxies_nodup _ initStats List.nodup_nil

/-- Witness for C8: one valid proxy answering HTTP 200 makes the scan write
the file. -/
theorem C8_output_file_witness :
    (run_scan "example.com" ["1.2.3.4:80"] (fun _ => NetResult.response 200 1)).fileLines
      ≠ none :=
  (C8_output_file "example.com" ["1.2.3.4:80"] (fun _ => NetResult.response 200 1)
      (by decide)).1.mpr ⟨0, by decide, 1, rfl⟩


/-- Splitting the in-flight sum at one worker. -/
theorem inflightF_eq {N : Nat} (f : Fin N → WState) (w : Fin N) :
    inflightF f = wContrib (f w) + ∑ x ∈ Finset.univ.erase w, wContrib (f x) :=
  (Finset.add_sum_erase _ _ (Finset.mem_univ w)).symm

/-- Updating one worker's state replaces exactly its contribution to the
in-flight sum. -/
theorem inflightF_update {N : Nat} (f : Fin N → WState) (w : Fin N) (v : WState) :
    inflightF (Function.update f w v)
      = wContrib v + ∑ x ∈ Finset.univ.erase w, wContrib (f x) := by
  rw [inflightF, ← Finset.add_sum_erase _ (fun x => wContrib (Function.update f w v x))
    (Finset.mem_univ w)]
  congr 1
  · rw [Function.update_same]
  · apply Finset.sum_congr rfl
    intro x hx
    rw [Function.update_noteq (Finset.ne_of_mem_erase hx)]

/-- The invariant holds in the initial state. -/
theorem inv_init (K : Nat) (env : Nat → POutcome) (N : Nat) : Inv K env (initCState N) := by
  refine ⟨Nat.zero_le K, ?_, ?_, rfl⟩
  · have h0 : inflight (initCState N) = 0 := by
      show (∑ x : Fin N, wContrib ((initCState N).wstate x)) = 0
      exact Finset.sum_eq_zero (fun x _ => rfl)
    rw [h0, add_zero]
    rfl
  · rintro ⟨w, hw⟩
    exact WState.noConfusion hw

/-- One worker step preserves the invariant. -/
theorem inv_step (K : Nat) (env : Nat → POutcome) {N : Nat} (st : CState N) (w : Fin N)
    (h : Inv K env st) : Inv K env (step K env st w) := by
  obtain ⟨h1, h2, h3, h4⟩ := h
  cases hw : st.wstate w with
  | ready =>
    by_cases hK : K ≤ st.cursor
    · have hs : step K env st w
          = { st with wstate := Function.update st.wstate w WState.done } := by
        simp only [step, hw]
        rw [if_pos hK]
      rw [hs]
      refine ⟨h1, ?_, fun _ => hK, h4⟩
      show (st.recorded : Multiset ℕ) + inflightF (Function.update st.wstate w WState.done)
        = (List.range st.cursor : Multiset ℕ)
      rw [inflightF_update]
      have hI : inflight st
          = wContrib WState.ready + ∑ x ∈ Finset.univ.erase w, wContrib (st.wstate x) := by
        rw [inflight, inflightF_eq st.wstate w, hw]
      have h2' := h2
      rw [hI] at h2'
      exact h2'
    · have hs : step K env st w
          = { st with
                cursor := st.cursor + 1
                wstate := Function.update st.wstate w (WState.probing st.cursor) } := by
        simp only [step, hw]
        rw [if_neg hK]
      rw [hs]
      refine ⟨Nat.succ_le_of_lt (not_le.mp hK), ?_, ?_, h4⟩
      · show (st.recorded : Multiset ℕ)
            + inflightF (Function.update st.wstate w (WState.probing st.cursor))
          = (List.range (st.cursor + 1) : Multiset ℕ)
        rw [inflightF_update, List.range_succ, ← Multiset.coe_add, Multiset.coe_singleton]
        have hI : inflight st
            = wContrib WState.ready + ∑ x ∈ Finset.univ.erase w, wContrib (st.wstate x) := by
          rw [inflight, inflightF_eq st.wstate w, hw]
        have h2' := h2
        rw [hI] at h2'
        have hz : wContrib WState.ready
            + ∑ x ∈ Finset.univ.erase w, wContrib (st.wstate x)
            = ∑ x ∈ Finset.univ.erase w, wContrib (st.wstate x) := zero_add _
        rw [hz] at h2'
        rw [← h2']
        show (st.recorded : Multiset ℕ)
            + ({st.cursor} + ∑ x ∈ Finset.univ.erase w, wContrib (st.wstate x))
          = (st.recorded : Multiset ℕ)
            + (∑ x ∈ Finset.univ.erase w, wContrib (st.wstate x)) + {st.cursor}
        rw [add_comm ({st.cursor} : Multiset ℕ) (∑ x ∈ Finset.univ.erase w, wContrib (st.wstate x)),
          ← add_assoc]
      · rintro ⟨w2, hw2⟩
        have hw2' : Function.update st.wstate w (WState.probing st.cursor) w2
            = WState.done := hw2
        by_cases hww : w2 = w
        · subst hww
          rw [Function.update_same] at hw2'
          exact WState.noConfusion hw2'
        · rw [Function.update_noteq hww] at hw2'
          exact absurd (h3 ⟨w2, hw2'⟩) hK
  | probing i =>
    have hs : step K env st w
        = { st with
              wstate := Function.update st.wstate w WState.ready
              recorded := st.recorded ++ [i]
              stats := updateStats st.stats (env i) } := by
      simp only [step, hw]
    rw [hs]
    refine ⟨h1, ?_, ?_, ?_⟩
    · show ((st.recorded ++ [i] : List ℕ) : Multiset ℕ)
          + inflightF (Function.update st.wstate w WState.ready)
        = (List.range st.cursor : Multiset ℕ)
      rw [inflightF_update, ← Multiset.coe_add, Multiset.coe_singleton]
      have hI : inflight st
          = wContrib (WState.probing i) + ∑ x ∈ Finset.univ.erase w, wContrib (st.wstate x) := by
        rw [inflight, inflightF_eq st.wstate w, hw]
      have h2' := h2
      rw [hI] at h2'
      rw [← h2']
      show (st.recorded : Multiset ℕ) + {i}
          + (0 + ∑ x ∈ Finset.univ.erase w, wContrib (st.wstate x))
        = (st.recorded : Multiset ℕ)
          + ({i} + ∑ x ∈ Finset.univ.erase w, wContrib (st.wstate x))
      rw [zero_add, add_assoc]
    · rintro ⟨w2, hw2⟩
      have hw2' : Function.update st.wstate w WState.ready w2 = WState.done := hw2
      by_cases hww : w2 = w
      · subst hww
        rw [Function.update_same] at hw2'
        exact WState.noConfusion hw2'
      · rw [Function.update_noteq hww] at hw2'
        exact h3 ⟨w2, hw2'⟩
    · show updateStats st.stats (env i)
        = ((st.recorded ++ [i]).map env).foldl updateStats initStats
      rw [h4, List.map_append, List.foldl_append]
      rfl
  | done =>
    have hs : step K env st w = st := by
      simp only [step, hw]
    rw [hs]
    exact ⟨h1, h2, h3, h4⟩

/-- The invariant is preserved along any schedule. -/
theorem inv_foldl (K : Nat) (env : Nat → POutcome) {N : Nat} (σ : List (Fin N)) :
    ∀ st : CState N, Inv K env st → Inv K env (σ.foldl (step K env) st) := by
  induction σ with
  | nil => intro st h; exact h
  | cons w σ2 ih =>
    intro st h
    rw [List.foldl_cons]
    exact ih _ (inv_step K env st w h)

/-- One step never decreases the cursor. -/
theorem cursor_step_le (K : Nat) (env : Nat → POutcome) {N : Nat} (st : CState N) (w : Fin N) :
    st.cursor ≤ (step K env st w).cursor := by
  cases hw : st.wstate w with
  | ready =>
    by_cases hK : K ≤ st.cursor
    · have hs : step K env st w
          = { st with wstate := Function.update st.wstate w WState.done } := by
        simp only [step, hw]
        rw [if_pos hK]
      rw [hs]
    · have hs : step K env st w
          = { st with
                cursor := st.cursor + 1
                wstate := Function.update st.wstate w (WState.probing st.cursor) } := by
        simp only [step, hw]
        rw [if_neg hK]
      rw [hs]
      exact Nat.le_succ _
  | probing i =>
    have hs : step K env st w
        = { st with
              wstate := Function.update st.wstate w WState.ready
              recorded := st.recorded ++ [i]
              stats := updateStats st.stats (env i) } := by
      simp only [step, hw]
    rw [hs]
  | done =>
    have hs : step K env st w = st := by
      simp only [step, hw]
    rw [hs]

/-- The cursor never decreases along a schedule. -/
theorem cursor_foldl_le (K : Nat) (env : Nat → POutcome) {N : Nat} (σ : List (Fin N)) :
    ∀ st : CState N, st.cursor ≤ (σ.foldl (step K env) st).cursor := by
  induction σ with
  | nil => intro st; exact le_rfl
  | cons w σ2 ih =>
    intro st
    rw [List.foldl_cons]
    exact le_trans (cursor_step_le K env st w) (ih _)

/-- Every outcome is a success or a failure, so the two counters add up to
the number of outcomes. -/
theorem countP_isOk_add_not (l : List POutcome) :
    l.countP isOk + l.countP (fun o => !isOk o) = l.length := by
  induction l with
  | nil => rfl
  | cons o t ih =>
    rw [List.countP_cons, List.countP_cons, List.length_cons]
    cases ho : isOk o <;> simp [ho] <;> omega

/-- Claim C1: for every queue length `K`, pool size `N ≥ 1`, outcome
environment and schedule after which all workers have terminated, the shared
cursor has increased monotonically (witnessed on every schedule prefix)
from 0 to exactly `K`; the recorded indices are exactly `0, …, K-1`, each
claimed by exactly one worker exactly once (no index skipped or
duplicated); exactly `K` outcomes are merged, the statistics are their
fold, and each claimed entry contributed exactly one success-or-failure
increment: the two counters sum to `K`. -/
theorem C1_worker_pool_claims (K N : Nat) (env : Nat → POutcome) (σ : List (Fin N))
    (hN : 1 ≤ N) (hdone : AllDone (run K env σ)) :
    (run K env σ).cursor = K ∧
    ((run K env σ).recorded : Multiset ℕ) = (List.range K : Multiset ℕ) ∧
    (run K env σ).recorded.length = K ∧
    (run K env σ).stats = scanStats ((run K env σ).recorded.map env) ∧
    (run K env σ).stats.successful_requests + (run K env σ).stats.failed_requests = K ∧
    ∀ σ1 σ2, σ = σ1 ++ σ2 →
      (run K env σ1).cursor ≤ (run K env σ).cursor ∧ (run K env σ1).cursor ≤ K := by
  have hI : Inv K env (run K env σ) := inv_foldl K env σ _ (inv_init K env N)
  obtain ⟨h1, h2, h3, h4⟩ := hI
  have hw0 : (run K env σ).wstate ⟨0, hN⟩ = WState.done := hdone ⟨0, hN⟩
  have hK : (run K env σ).cursor = K := le_antisymm h1 (h3 ⟨⟨0, hN⟩, hw0⟩)
  have hinf0 : inflight (run K env σ) = 0 := by
    show (∑ x : Fin N, wContrib ((run K env σ).wstate x)) = 0
    exact Finset.sum_eq_zero (fun x _ => by rw [hdone x]; rfl)
  have hrec0 : ((run K env σ).recorded : Multiset ℕ)
      = (List.range (run K env σ).cursor : Multiset ℕ) := by
    rw [← h2, hinf0, add_zero]
  have hrec : ((run K env σ).recorded : Multiset ℕ) = (List.range K : Multiset ℕ) := by
    rw [hrec0, hK]
  have hlen : (run K env σ).recorded.length = K := by
    have hcard := congrArg Multiset.card hrec
    rw [Multiset.coe_card, Multiset.coe_card, List.length_range] at hcard
    exact hcard
  refine ⟨hK, hrec, hlen, ?_, ?_, ?_⟩
  · rw [h4, scanStats]
  · rw [h4]
    show (((run K env σ).recorded.map env).foldl updateStats initStats).successful_requests
        + (((run K env σ).recorded.map env).foldl updateStats initStats).failed_requests = K
    rw [foldl_stats_succ, foldl_stats_failed]
    have hcnt := countP_isOk_add_not ((run K env σ).recorded.map env)
    have hl : ((run K env σ).recorded.map env).length = K := by
      rw [List.length_map]
      exact hlen
    have hz1 : initStats.successful_requests = 0 := rfl
    have hz2 : initStats.failed_requests = 0 := rfl
    omega
  · intro σ1 σ2 hσ
    subst hσ
    have hmono : (run K env σ1).cursor ≤ (run K env (σ1 ++ σ2)).cursor := by
      show (run K env σ1).cursor
        ≤ ((σ1 ++ σ2).foldl (step K env) (initCState N)).cursor
      rw [List.foldl_append]
      exact cursor_foldl_le K env σ2 _
    exact ⟨hmono, le_trans hmono h1⟩

/-- Witness for C1: two queue entries, one worker, a schedule that claims
and records both entries and then observes the exhausted cursor. -/
theorem C1_worker_pool_claims_witness :
    1 ≤ 1 ∧
    AllDone (run 2 (fun i => if i = 0 then POutcome.ok (some "1.1.1.1:80") 200 1
        else POutcome.fail (some "2.2.2.2:80")) ([0, 0, 0, 0, 0] : List (Fin 1))) ∧
    (run 2 (fun i => if i = 0 then POutcome.ok (some "1.1.1.1:80") 200 1
        else POutcome.fail (some "2.2.2.2:80")) ([0, 0, 0, 0, 0] : List (Fin 1))).cursor = 2 ∧
    ((run 2 (fun i => if i = 0 then POutcome.ok (some "1.1.1.1:80") 200 1
        else POutcome.fail (some "2.2.2.2:80"))
        ([0, 0, 0, 0, 0] : List (Fin 1))).recorded : Multiset ℕ)
      = (List.range 2 : Multiset ℕ) ∧
    (run 2 (fun i => if i = 0 then POutcome.ok (some "1.1.1.1:80") 200 1
        else POutcome.fail (some "2.2.2.2:80"))
        ([0, 0, 0, 0, 0] : List (Fin 1))).stats.successful_requests
      + (run 2 (fun i => if i = 0 then POutcome.ok (some "1.1.1.1:80") 200 1
          else POutcome.fail (some "2.2.2.2:80"))
          ([0, 0, 0, 0, 0] : List (Fin 1))).stats.failed_requests = 2 := by
  have hd : AllDone (run 2 (fun i => if i = 0 then POutcome.ok (some "1.1.1.1:80") 200 1
      else POutcome.fail (some "2.2.2.2:80")) ([0, 0, 0, 0, 0] : List (Fin 1))) := by
    show ∀ w : Fin 1, (run 2 (fun i => if i = 0 then POutcome.ok (some "1.1.1.1:80") 200 1
      else POutcome.fail (some "2.2.2.2:80"))
      ([0, 0, 0, 0, 0] : List (Fin 1))).wstate w = WState.done
    decide
  have hc := C1_worker_pool_claims 2 1
    (fun i => if i = 0 then POutcome.ok (some "1.1.1.1:80") 200 1
      else POutcome.fail (some "2.2.2.2:80"))
    ([0, 0, 0, 0, 0] : List (Fin 1)) (Nat.le_refl 1) hd
  exact ⟨Nat.le_refl 1, hd, hc.1, hc.2.1, hc.2.2.2.2.1⟩

end PC
